import Mathlib

/-!
Verification development for the chatery_whatsapp control plane.

Shallow embedding of the components the specification talks about:

* the webhook dispatcher (`src/services/whatsapp/WebhookManager.js`),
* shared phone-number normalization (`src/services/whatsapp/Utilities.js`)
  and the session-level formatters (`WhatsAppSession.js`),
* the bulk send job loop (`POST /messages/bulk` route handler),
* the session reconnect supervisor (`WhatsAppSession` connection handling),
* the database ingestion pipeline (`src/stores/DatabaseStore.js`):
  message upsert with the unread-counter triggers, contact diffing,
  group participant updates and the blocklist handlers.

Each definition mirrors the corresponding JavaScript function; theorems
below settle the specification claims against these definitions.
-/

namespace Chatery

/-! ### Webhook dispatcher (WebhookManager.js)

A webhook subscription is `{ url, events }` where `events` may be absent
(`hook.events || ['all']` in `send`).  `send(event, data)` delivers the
payload to a hook iff its (defaulted) filter contains `"all"` or the
event name (`WebhookManager.send`, the
`if (!events.includes('all') && !events.includes(event)) return null` guard).
-/

structure Hook where
  url : String
  events : Option (List String)
deriving Repr, DecidableEq

/-- `hook.events || ['all']` : the filter used by `send`. -/
def hookEvents (h : Hook) : List String := h.events.getD ["all"]

/-- One hook receives event `ev` iff its filter contains `"all"` or `ev`. -/
def hookMatches (h : Hook) (ev : String) : Bool :=
  (hookEvents h).contains "all" || (hookEvents h).contains ev

/-- The set of hooks `send` delivers the payload to. -/
def deliveredHooks (hooks : List Hook) (ev : String) : List Hook :=
  hooks.filter (fun h => hookMatches h ev)

/-- `this.maxRetries = 3` in the `WebhookManager` constructor. -/
def maxRetries : Nat := 3

/-- `this.requestTimeout = 10000` : per-attempt abort timeout in ms. -/
def requestTimeout : Nat := 10000

/-- `1000 * Math.pow(2, attempts - 1)` : backoff before the next attempt,
where `attempts` is the number of failed attempts so far. -/
def retryDelay (failedAttempts : Nat) : Nat := 1000 * 2 ^ (failedAttempts - 1)

/-- Result of delivering one payload to one hook: number of HTTP calls
made, the sleeps performed between attempts (ms), and whether a 2xx
response was eventually obtained.  The `while (attempts < this.maxRetries)`
loop never rethrows: exhaustion yields a `success: false` record. -/
structure DeliveryResult where
  calls : Nat
  delays : List Nat
  success : Bool
deriving Repr, DecidableEq

/-- The retry loop of `WebhookManager.send` for a single hook.  `ok n`
tells whether the `(n+1)`-th fetch returns a 2xx response (a non-2xx
response and a network/timeout error both take the `catch` path).
`failed` is the JS `attempts` counter, which counts failed attempts; the
second argument is the remaining loop fuel `maxRetries - failed`, so
`fuel = 0` is exactly the exit of `while (attempts < this.maxRetries)`. -/
def deliverLoop (ok : Nat → Bool) : Nat → Nat → DeliveryResult
  | _, 0 => { calls := 0, delays := [], success := false }
  | failed, fuel + 1 =>
    if ok failed then { calls := 1, delays := [], success := true }
    else
      let rest := deliverLoop ok (failed + 1) fuel
      { calls := 1 + rest.calls,
        delays :=
          (if failed + 1 < maxRetries then [retryDelay (failed + 1)] else [])
            ++ rest.delays,
        success := rest.success }

/-- Delivery to one hook starts with `attempts = 0`. -/
def deliverHook (ok : Nat → Bool) : DeliveryResult := deliverLoop ok 0 maxRetries

/-- Per-event fan-out of `send`: every hook is processed independently and
the outcomes are collected with `Promise.allSettled`, so the caller always
gets one settled record per hook and no per-hook failure propagates. -/
def sendFanout (hooks : List Hook) (ev : String) (ok : Hook → Nat → Bool) :
    List (Option DeliveryResult) :=
  hooks.map (fun h => if hookMatches h ev then some (deliverHook (ok h)) else none)

/-! ### Phone-number normalization (Utilities.js and WhatsAppSession.js)

JavaScript string primitives are modeled on the character list of the
Lean string (`String.data`), which keeps every definition executable by
the kernel. -/

/-- `s.includes(c)` for a single character. -/
def jsContainsChar (s : String) (c : Char) : Bool := s.data.contains c

/-- `s.startsWith(pre)`. -/
def jsStartsWith (s pre : String) : Bool := pre.data.isPrefixOf s.data

/-- `s.substring(n)` / `s.slice(n)` for a non-negative index. -/
def jsDrop (s : String) (n : Nat) : String := ⟨s.data.drop n⟩

/-- `s.trim()`: strip leading and trailing whitespace. -/
def jsTrim (s : String) : String :=
  ⟨((s.data.dropWhile Char.isWhitespace).reverse.dropWhile
      Char.isWhitespace).reverse⟩

/-- `input.replace(/\D/g, '')` : keep only the digit characters. -/
def stripNonDigits (s : String) : String := ⟨s.data.filter Char.isDigit⟩

/-- Return shape of `Utilities.normalizePhoneNumber` (error text omitted). -/
structure NormResult where
  valid : Bool
  normalized : Option String
deriving Repr, DecidableEq

/-- `Utilities.normalizePhoneNumber`: strip non-digits, rewrite a leading
`0` to `62`, prefix `62` to a number starting with `8` of at least 10
digits, then accept iff the result has 9 to 15 digits. -/
def normalizePhoneNumber (input : String) : NormResult :=
  if input.data.isEmpty then { valid := false, normalized := none }
  else
    let cleaned := stripNonDigits input
    if cleaned.length = 0 then { valid := false, normalized := none }
    else
      let cleaned2 :=
        if jsStartsWith cleaned "0" then "62" ++ jsDrop cleaned 1
        else if jsStartsWith cleaned "8" && decide (10 ≤ cleaned.length) then
          "62" ++ cleaned
        else cleaned
      if cleaned2.length < 9 ∨ 15 < cleaned2.length then
        { valid := false, normalized := none }
      else { valid := true, normalized := some cleaned2 }

/-- The normalization the claim describes, written from its words: strip
all non-digit characters, replace a leading `'0'` by `'62'`, prefix
`'62'` to a number starting with `'8'` of length at least 10, and accept
the input iff the result has between 9 and 15 digits. -/
def claimPhoneNormalization (input : String) : Option String :=
  let d := stripNonDigits input
  let r :=
    if jsStartsWith d "0" then "62" ++ jsDrop d 1
    else if jsStartsWith d "8" && decide (10 ≤ d.length) then "62" ++ d
    else d
  if 9 ≤ r.length ∧ r.length ≤ 15 then some r else none

/-- `WhatsAppSession.formatChatId`: the chat-id formatter used by the
session's send paths (for example `sendPresenceUpdate`).  It applies only
the leading-`0` rule — no `8`-prefix rule and no digit-count check. -/
def formatChatId (chatId : String) : String :=
  if jsContainsChar chatId '@' then chatId
  else
    let formatted := stripNonDigits chatId
    let formatted2 :=
      if jsStartsWith formatted "0" then "62" ++ jsDrop formatted 1
      else formatted
    formatted2 ++ "@s.whatsapp.net"

/-- `WhatsAppSession.formatPhoneNumber`: strips non-digits, applies only
the leading-`0` rule, then appends the server suffix (the `includes('@')`
test is done after digit-stripping, so it always appends). -/
def formatPhoneNumber (phone : String) : String :=
  let formatted := stripNonDigits phone
  let formatted2 :=
    if jsStartsWith formatted "0" then "62" ++ jsDrop formatted 1
    else formatted
  if jsContainsChar formatted2 '@' then formatted2
  else formatted2 ++ "@s.whatsapp.net"

/-! ### Bulk job manager (`POST /messages/bulk` route handler)

The handler validates the recipient list (non-empty, at most 100),
creates a `queued` job record, answers with the job id and then runs a
background loop that sends to each recipient in order, counting
successes and failures, appending one detail entry per recipient and
updating `progress = Math.round(((i + 1) / total) * 100)` after every
item, finally marking the job `completed`. -/

/-- Outcome of `sendMessage` for one recipient: a resolved result with
`success: true` and a message id, or a failure (resolved with
`success: false` or a thrown error — both are counted the same way). -/
inductive SendOutcome where
  | ok (messageId : String)
  | fail (err : String)
deriving Repr, DecidableEq

/-- One entry of `job.details` (the source field `to` is a reserved word
here, hence `toRecipient`). -/
structure BulkDetail where
  toRecipient : String
  status : String
  info : Option String
deriving Repr, DecidableEq

/-- The pollable bulk job record (timestamps reduced to a flag for
`completedAt`). -/
structure BulkJob where
  status : String
  total : Nat
  sent : Nat
  failed : Nat
  progress : Nat
  details : List BulkDetail
  hasCompletedAt : Bool
deriving Repr, DecidableEq

/-- `Math.round((done / total) * 100)` for naturals
(`floor(x + 1/2)` since the argument is non-negative). -/
def jsRound100 (done total : Nat) : Nat := (200 * done + total) / (2 * total)

/-- The job record as allocated by the route handler. -/
def initJob (total : Nat) : BulkJob :=
  { status := "queued", total := total, sent := 0, failed := 0,
    progress := 0, details := [], hasCompletedAt := false }

/-- The recipient-count validation of the handler: rejects an empty list
and more than 100 recipients. -/
def bulkAccepted (recipients : List String) : Bool :=
  !recipients.isEmpty && decide (recipients.length ≤ 100)

/-- Whether an outcome took the success branch (`r.success`). -/
def isOk : SendOutcome → Bool
  | .ok _ => true
  | .fail _ => false

/-- One iteration of the background loop: record the outcome for one
recipient and recompute `progress` (the loop index plus one equals
`sent + failed` after the increment). -/
def bulkStep (job : BulkJob) (item : String × SendOutcome) : BulkJob :=
  let j :=
    match item.2 with
    | .ok mid =>
      { job with sent := job.sent + 1,
                 details := job.details ++
                   [(⟨item.1, "sent", some mid⟩ : BulkDetail)] }
    | .fail err =>
      { job with failed := job.failed + 1,
                 details := job.details ++
                   [(⟨item.1, "failed", some err⟩ : BulkDetail)] }
  { j with progress := jsRound100 (j.sent + j.failed) j.total }

/-- Run the loop body over a list of (recipient, outcome) pairs. -/
def processItems (job : BulkJob) (items : List (String × SendOutcome)) : BulkJob :=
  items.foldl bulkStep job

/-- The whole background task: mark `processing`, run the loop, then mark
`completed` and record the completion timestamp. -/
def runBulk (items : List (String × SendOutcome)) : BulkJob :=
  let j := processItems { initJob items.length with status := "processing" } items
  { j with status := "completed", hasCompletedAt := true }

/-- Every job state observable by `getStatus` polls.  JavaScript is
single-threaded, so snapshots can only be taken while the background task
is parked at an `await`: at the `sendMessage` await of item `k`
(`k` items fully recorded, `k < total`) or at the inter-item sleep
(`k + 1 ≤ total - 1` items recorded) — together exactly the `processing`
states after `0, …, total - 1` items — plus the initial record and the
final `completed` record (the last item's bookkeeping and the completion
marking run in one synchronous stretch, with no `await` in between). -/
def bulkSnapshots (items : List (String × SendOutcome)) : List BulkJob :=
  initJob items.length ::
    (List.range items.length).map
      (fun k => processItems { initJob items.length with status := "processing" }
        (items.take k))
    ++ [runBulk items]

/-! ### Session supervisor reconnection (WhatsAppSession, part_001 variant)

State and events of the `connection.update` handler installed by
`_setupEventListeners`, together with the `connect()` entry point.  Only
the fields the reconnection policy reads are modeled. -/

/-- `this.maxReconnectAttempts = 8` in the session constructor. -/
def maxReconnectAttempts : Nat := 8

/-- `this.reconnectDelayBase = 5000` (ms) in the session constructor. -/
def reconnectDelayBase : Nat := 5000

/-- `this.reconnectDelayBase * Math.pow(1.6, this.reconnectAttempts - 1)`,
the delay scheduled before reconnect attempt number `attemptNumber`
(the floating-point factor 1.6 is represented exactly as `8/5`). -/
def reconnectDelay (attemptNumber : Nat) : ℚ :=
  (reconnectDelayBase : ℚ) * (8 / 5 : ℚ) ^ (attemptNumber - 1)

/-- Supervisor state: `this.connectionStatus` and
`this.reconnectAttempts`. -/
structure SupState where
  connectionStatus : String
  reconnectAttempts : Nat
deriving Repr, DecidableEq

/-- Events driving the supervisor: a `connection.update` close (with
`loggedOut` iff the disconnect status code equals
`DisconnectReason.loggedOut`, i.e. the cause is unrecoverable), a
`connection.update` open, and the execution of a (scheduled or manual)
`connect()` call, which succeeds unless socket allocation throws. -/
inductive SupEvent where
  | connClose (loggedOut : Bool)
  | connOpen
  | connectRun (ok : Bool)
deriving Repr, DecidableEq

/-- One supervisor transition.  Returns the new state and, for a close
event that schedules a reconnect via `setTimeout`, the scheduled delay. -/
def supStep (s : SupState) : SupEvent → SupState × Option ℚ
  | .connClose loggedOut =>
    let shouldReconnect := !loggedOut
    if shouldReconnect && decide (s.reconnectAttempts < maxReconnectAttempts) then
      let a := s.reconnectAttempts + 1
      ({ connectionStatus := "disconnected", reconnectAttempts := a },
        some (reconnectDelay a))
    else
      ({ connectionStatus := "disconnected",
         reconnectAttempts := s.reconnectAttempts }, none)
  | .connOpen =>
    ({ connectionStatus := "connected", reconnectAttempts := 0 }, none)
  | .connectRun ok =>
    if s.connectionStatus = "connected" then (s, none)
    else if s.connectionStatus = "connecting" then (s, none)
    else if ok then
      ({ connectionStatus := "connecting", reconnectAttempts := 0 }, none)
    else
      ({ connectionStatus := "error",
         reconnectAttempts := s.reconnectAttempts }, none)

/-- Run a list of events, counting how many reconnects get scheduled. -/
def supRun (s : SupState) : List SupEvent → SupState × Nat
  | [] => (s, 0)
  | e :: es =>
    let step := supStep s e
    let rest := supRun step.1 es
    (rest.1, (if step.2.isSome then 1 else 0) + rest.2)

/-- The state set up by the `WhatsAppSession` constructor. -/
def initialSup : SupState :=
  { connectionStatus := "disconnected", reconnectAttempts := 0 }

/-- `n` repetitions of recoverable-disconnect followed by the scheduled
`connect()` executing successfully, then one more recoverable
disconnect. -/
def reconnectCycleTrace (n : Nat) : List SupEvent :=
  (List.replicate n [SupEvent.connClose false, SupEvent.connectRun true]).flatten
    ++ [SupEvent.connClose false]

/-! ### Blocklist handlers (DatabaseStore.js)

`_upsertBlocklist` (full sync) and `_updateBlocklist` (incremental
add/remove).  The stored value is the JSON array in the single
`device_blocklist` row of the session (`none` if the row is absent). -/

/-- The shared input normalization of both handlers: keep entries
containing `'@'` and trim them. -/
def normalizeJids (l : List String) : List String :=
  (l.filter (fun jid => jsContainsChar jid '@')).map (fun jid => jsTrim jid)

/-- `[...new Set(list)]` for a string array: keep the first occurrence of
every value, in insertion order.  `seen` holds the values already kept. -/
def jsSetDedupGo (seen : List String) : List String → List String
  | [] => []
  | x :: rest =>
    if seen.contains x then jsSetDedupGo seen rest
    else x :: jsSetDedupGo (x :: seen) rest

/-- `[...new Set(list)]` on a string array. -/
def jsSetDedup (l : List String) : List String := jsSetDedupGo [] l

/-- `_upsertBlocklist` (blocklist full sync): wholesale replacement of the
stored array, except that an event whose normalized list is empty returns
early and leaves the stored row untouched. -/
def upsertBlocklist (stored : Option (List String)) (blocklist : List String) :
    Option (List String) :=
  let normalized := normalizeJids blocklist
  if normalized.isEmpty then stored else some normalized

/-- The `type` field of a `blocklist.update` event (other values are
rejected by the handler's guard). -/
inductive BLType where
  | add | remove
deriving Repr, DecidableEq

/-- `_updateBlocklist`: load the current set, apply the add/remove, and
write back — except that the no-change skip
(`updated.length === current.length && type === "add"`) only fires for
`add`.  Returns the stored value afterwards and whether a write (the
`INSERT … ON DUPLICATE KEY UPDATE`) was issued. -/
def updateBlocklist (stored : Option (List String)) (ty : BLType)
    (blocklist : List String) : Option (List String) × Bool :=
  let normalized := normalizeJids blocklist
  if normalized.isEmpty then (stored, false)
  else
    let current := (stored.getD [])
    let updated :=
      match ty with
      | .add => jsSetDedup (current ++ normalized)
      | .remove => current.filter (fun jid => !normalized.contains jid)
    if updated.length = current.length ∧ ty = .add then (stored, false)
    else (some updated, true)

/-! ### Group participant updates (DatabaseStore.js `_updateGroupParticipants`)

The stored `participants` column is a JSON array whose elements are
either plain JID strings (what repeated `add` updates write) or objects
(what `_upsertGroupMetadata` writes from group metadata).  `PEntry`
models one parsed element; for objects only the fields the handler reads
(`id`, `admin`) are kept — spreading a string with `{...p, admin}`
produces an object that has no `id` property, modeled as
`pobj none _`. -/

inductive PEntry where
  | pstr (s : String)
  | pobj (id : Option String) (admin : Option Bool)
deriving Repr, DecidableEq

/-- `participants.includes(p.id || p)`: a string matches by value, an
object matches by its `id` field; an object without `id` falls back to
`p` itself, and an object is never `===` to a string. -/
def entryTargeted (participants : List String) : PEntry → Bool
  | .pstr s => participants.contains s
  | .pobj (some i) _ => participants.contains i
  | .pobj none _ => false

/-- `participants.includes(p)` in the `remove` branch: only a string
element can be `===` to an element of the string array. -/
def entryIncludedAsValue (participants : List String) : PEntry → Bool
  | .pstr s => participants.contains s
  | .pobj _ _ => false

/-- `{...p, admin: action === 'promote'}`: for an object, copy it and set
`admin`; spreading a string copies only its index properties, so the
result is an object carrying no `id`. -/
def spreadWithAdmin (b : Bool) : PEntry → PEntry
  | .pstr _ => .pobj none (some b)
  | .pobj i _ => .pobj i (some b)

/-- `[...new Set([...list, ...participants])]`: Set membership is
SameValueZero, so string elements deduplicate by value while (freshly
parsed) objects are distinct references and are all kept. -/
def peSetDedupGo (seen : List PEntry) : List PEntry → List PEntry
  | [] => []
  | x :: rest =>
    match x with
    | .pstr s =>
      if seen.contains (PEntry.pstr s) then peSetDedupGo seen rest
      else PEntry.pstr s :: peSetDedupGo (PEntry.pstr s :: seen) rest
    | .pobj i a => PEntry.pobj i a :: peSetDedupGo seen rest

/-- JS Set dedup over parsed participant entries. -/
def peSetDedup (l : List PEntry) : List PEntry := peSetDedupGo [] l

/-- The `action` of a `group-participants.update` event. -/
inductive GPAction where
  | add | remove | promote | demote
deriving Repr, DecidableEq

/-- The read-modify-write core of `_updateGroupParticipants`: the stored
list is read, the action applied, and the result written back. -/
def applyParticipants (list : List PEntry) (action : GPAction)
    (participants : List String) : List PEntry :=
  match action with
  | .add => peSetDedup (list ++ participants.map PEntry.pstr)
  | .remove => list.filter (fun p => !entryIncludedAsValue participants p)
  | .promote =>
    list.map (fun p =>
      if entryTargeted participants p then spreadWithAdmin true p else p)
  | .demote =>
    list.map (fun p =>
      if entryTargeted participants p then spreadWithAdmin false p else p)

/-- The identity under which a stored entry is recognizable as
participant `P` by later events: its string value or its `id` field. -/
def entryId : PEntry → Option String
  | .pstr s => some s
  | .pobj i _ => i

/-- How many times participant `s` occurs as a plain string entry. -/
def countStr (l : List PEntry) (s : String) : Nat := l.count (PEntry.pstr s)

/-- The set of string values the JS `Set` has accumulated after the
elements of the second argument were inserted (starting from `seen`). -/
def peSeenAcc (seen : List PEntry) : List PEntry → List PEntry
  | [] => seen
  | x :: rest =>
    match x with
    | .pstr s =>
      if seen.contains (PEntry.pstr s) then peSeenAcc seen rest
      else peSeenAcc (PEntry.pstr s :: seen) rest
    | .pobj _ _ => peSeenAcc seen rest

/-! ### Contact diffing (DatabaseStore.js `_bulkUpsertContacts`)

Per contact, the handler builds a `final` record (incoming fields plus
best-effort enrichment) and compares it field by field against the stored
row; an unchanged contact is skipped entirely, and one change-log entry
is pushed per field that actually differs.  The `business_profile`
comparison JSON-normalizes both sides; stored values are JSON produced by
the same serializer, so it is modeled as plain equality. -/

structure ContactRow where
  lid : Option String
  phone_number : Option String
  name : Option String
  notify : Option String
  verified_name : Option String
  profile_picture_url : Option String
  about : Option String
  business_profile : Option String
deriving Repr, DecidableEq

/-- One row of `contact_changes` (ids and timestamp omitted). -/
structure ContactChange where
  changed_field : String
  old_value : Option String
  new_value : Option String
deriving Repr, DecidableEq

/-- The eight compared fields, in the order of the source's `if` chain. -/
def contactFieldList : List (String × (ContactRow → Option String)) :=
  [("lid", ContactRow.lid),
   ("phone_number", ContactRow.phone_number),
   ("name", ContactRow.name),
   ("notify", ContactRow.notify),
   ("verified_name", ContactRow.verified_name),
   ("profile_picture_url", ContactRow.profile_picture_url),
   ("about", ContactRow.about),
   ("business_profile", ContactRow.business_profile)]

/-- The `changes` array: one entry per field whose stored value differs
from the incoming one (`if (existing.f !== final.f) changes.push(...)`). -/
def diffContact (existing final : ContactRow) : List ContactChange :=
  contactFieldList.filterMap (fun nf =>
    if nf.2 existing ≠ nf.2 final then
      some ⟨nf.1, nf.2 existing, nf.2 final⟩
    else none)

/-- What `_bulkUpsertContacts` does with one contact. -/
inductive ContactWrite where
  | insert (row : ContactRow)
  | skip
  | update (row : ContactRow)
deriving Repr, DecidableEq

/-- Per-contact decision: brand-new contacts are inserted with no change
log; an existing contact with zero changed fields is skipped completely
(`continue`); otherwise the row is upserted and exactly the changed
fields are logged. -/
def processContact (existing : Option ContactRow) (final : ContactRow) :
    ContactWrite × List ContactChange :=
  match existing with
  | none => (.insert final, [])
  | some ex =>
    let changes := diffContact ex final
    if changes.isEmpty then (.skip, [])
    else (.update final, changes)

/-! ### Message ingestion and the unread counter (DatabaseStore.js)

`_upsertMessage` issues `INSERT … ON DUPLICATE KEY UPDATE` on `messages`
(primary key `(session_id, chat_id, message_id)`); the duplicate branch
updates only the mutable columns (`type, content, caption, timestamp,
status, raw_json`) — in particular `from_me` keeps its stored value.
`_updateMessage` patches `status` of an existing row.  The counter lives
in `chats_overview.unread_count` and is maintained by two triggers
installed by `ensureTables`:

* `tr_messages_after_insert_unread` — after a *real* insert of a row with
  `from_me = 0 AND status != 'read'`, insert-or-increment the overview
  row of the chat;
* `tr_messages_after_update_read` — after an update (either the duplicate
  branch of the upsert or `_updateMessage`) where `OLD.from_me = 0 AND
  OLD.status != 'read' AND NEW.status = 'read'`, decrement the overview
  counter with `GREATEST(unread_count - 1, 0)`.

Only the columns these paths read are modeled.  A single session is
modeled; every row carries the session id in the source. -/

structure MsgRow where
  chat_id : String
  message_id : String
  from_me : Bool
  status : String
deriving Repr, DecidableEq

/-- The composite key `(chat_id, message_id)`. -/
def rowKey (r : MsgRow) : String × String := (r.chat_id, r.message_id)

/-- Store state: the `messages` rows and the `chats_overview` rows
reduced to `(chat_id, unread_count)`. -/
structure StoreState where
  msgs : List MsgRow
  overview : List (String × Nat)
deriving Repr, DecidableEq

/-- The events of the claim's alphabet: a `messages.upsert`/`messages.set`
ingestion of one message (with the oversized-payload early return as a
flag) and a `messages.update` status patch. -/
inductive MsgEvent where
  | upsert (chatId messageId : String) (fromMe : Bool) (status : String)
      (oversize : Bool)
  | statusUpdate (chatId messageId : String) (status : String)
deriving Repr, DecidableEq

/-- Insert-or-increment of the overview row
(`INSERT … unread_count = 1 … ON DUPLICATE KEY UPDATE
unread_count = unread_count + 1`). -/
def ovIncr (ov : List (String × Nat)) (c : String) : List (String × Nat) :=
  if ov.any (fun p => p.1 = c) then
    ov.map (fun p => if p.1 = c then (p.1, p.2 + 1) else p)
  else (c, 1) :: ov

/-- `UPDATE chats_overview SET unread_count = GREATEST(unread_count - 1, 0)
WHERE …` — only existing rows are touched; `Nat` subtraction is exactly
the `GREATEST(… - 1, 0)` floor. -/
def ovDecr (ov : List (String × Nat)) (c : String) : List (String × Nat) :=
  ov.map (fun p => if p.1 = c then (p.1, p.2 - 1) else p)

/-- The stored unread counter of a chat (0 if the overview row is
absent). -/
def storedUnread (s : StoreState) (c : String) : Nat :=
  match s.overview.find? (fun p => p.1 = c) with
  | some p => p.2
  | none => 0

/-- Whether a message row counts toward the unread aggregate of chat `c`:
same chat, inbound (`from_me = false`), status not `'read'`. -/
def countsUnread (c : String) (r : MsgRow) : Bool :=
  r.chat_id = c && r.from_me = false && r.status != "read"

/-- The derived aggregate the spec defines:
`count(messages where chat = c, fromMe = false, status != 'read')`. -/
def specUnread (s : StoreState) (c : String) : Nat :=
  s.msgs.countP (countsUnread c)

/-- The shared update path: the duplicate branch of `_upsertMessage` and
`_updateMessage` both rewrite only mutable columns (here: `status`) of
the existing row and fire `tr_messages_after_update_read`. -/
def writeStatus (s : StoreState) (c m : String) (old : MsgRow) (st : String) :
    StoreState :=
  let row : MsgRow := ⟨c, m, old.from_me, st⟩
  { msgs := s.msgs.map (fun r => if rowKey r = (c, m) then row else r),
    overview :=
      if old.from_me = false && old.status != "read" && st == "read" then
        ovDecr s.overview c
      else s.overview }

/-- Apply one event to the store. -/
def applyEvent (s : StoreState) : MsgEvent → StoreState
  | .upsert c m fm st oversize =>
    if oversize then s
    else
      match s.msgs.find? (fun r => rowKey r = (c, m)) with
      | none =>
        let row : MsgRow := ⟨c, m, fm, st⟩
        { msgs := row :: s.msgs,
          overview :=
            if fm = false && st != "read" then ovIncr s.overview c
            else s.overview }
      | some old => writeStatus s c m old st
  | .statusUpdate c m st =>
    match s.msgs.find? (fun r => rowKey r = (c, m)) with
    | none => s
    | some old => writeStatus s c m old st

/-- Fold a trace of events over the store. -/
def applyEvents (s : StoreState) (es : List MsgEvent) : StoreState :=
  es.foldl applyEvent s

/-- The empty store (fresh tables). -/
def initialStore : StoreState := ⟨[], []⟩

/-- An event is status-monotone at a state if it does not rewrite a
stored inbound row from `'read'` back to a non-`'read'` status (the
transition direction the triggers do not compensate). -/
def eventOk (s : StoreState) : MsgEvent → Bool
  | .upsert c m _ st oversize =>
    if oversize then true
    else
      match s.msgs.find? (fun r => rowKey r = (c, m)) with
      | none => true
      | some old => !(old.from_me = false && old.status == "read" && st != "read")
  | .statusUpdate c m st =>
    match s.msgs.find? (fun r => rowKey r = (c, m)) with
    | none => true
    | some old => !(old.from_me = false && old.status == "read" && st != "read")

/-- A trace is status-monotone if every event is, at the state where it
applies. -/
def traceOk (s : StoreState) : List MsgEvent → Bool
  | [] => true
  | e :: es => eventOk s e && traceOk (applyEvent s e) es

/-- The inductive invariant of the store: primary-key uniqueness of the
message rows, and the unread aggregate equality for every chat. -/
def StoreInv (s : StoreState) : Prop :=
  (s.msgs.map rowKey).Nodup ∧ ∀ c, storedUnread s c = specUnread s c

/-! ## Theorems -/

/-- C3: `send(eventName, payload)` delivers the payload exactly to the
subscriptions whose event filter contains the event name or `"all"`: a
hook is in the delivered set iff its (defaulted) filter contains `"all"`
or the event; in particular a subscriber with filter `{"qr"}` never
receives a `"message"` event and a subscriber with filter `{"all"}`
receives every event. -/
theorem webhook_filter_correct (hooks : List Hook) (ev : String) (h : Hook)
    (hmem : h ∈ hooks) :
    (h ∈ deliveredHooks hooks ev ↔
      (hookEvents h).contains "all" = true ∨ (hookEvents h).contains ev = true) ∧
    (h.events = some ["qr"] → h ∉ deliveredHooks hooks "message") ∧
    (h.events = some ["all"] → h ∈ deliveredHooks hooks ev) := by
  refine ⟨?_, ?_, ?_⟩
  · simp [deliveredHooks, List.mem_filter, hmem, hookMatches, Bool.or_eq_true]
  · intro he
    simp [deliveredHooks, List.mem_filter, hookMatches, hookEvents, he]
  · intro he
    simp [deliveredHooks, List.mem_filter, hmem, hookMatches, hookEvents, he]

/-- Witness for C3 on a concrete subscription list: the `{"qr"}`-filtered
hook does not receive a `"message"` event, the `{"all"}`-filtered hook
does. -/
theorem webhook_filter_correct_witness :
    (⟨"http://a", some ["qr"]⟩ : Hook) ∉
      deliveredHooks [⟨"http://a", some ["qr"]⟩, ⟨"http://b", some ["all"]⟩]
        "message" ∧
    (⟨"http://b", some ["all"]⟩ : Hook) ∈
      deliveredHooks [⟨"http://a", some ["qr"]⟩, ⟨"http://b", some ["all"]⟩]
        "message" :=
  ⟨(webhook_filter_correct
      [⟨"http://a", some ["qr"]⟩, ⟨"http://b", some ["all"]⟩] "message"
      ⟨"http://a", some ["qr"]⟩ (by decide)).2.1 rfl,
   (webhook_filter_correct
      [⟨"http://a", some ["qr"]⟩, ⟨"http://b", some ["all"]⟩] "message"
      ⟨"http://b", some ["all"]⟩ (by decide)).2.2 rfl⟩

/-- C4: per subscriber the dispatcher makes at most `maxRetries = 3`
fetch attempts, each issued with the bounded `requestTimeout`; when the
subscriber fails every attempt (non-2xx or network error), exactly 3
calls are made — no 4th — with exponential backoff sleeps of 1000 ms and
2000 ms between consecutive attempts (`1000 * 2^(k-1)` after the `k`-th
failure while attempts remain), and the loop terminates in a
`success: false` record instead of rethrowing, so the overall `send`
(whose per-hook promises are collected with `Promise.allSettled`,
yielding one settled outcome per hook) never throws to its caller. -/
theorem webhook_retry_bound (ok : Nat → Bool) (hooks : List Hook) (ev : String)
    (oks : Hook → Nat → Bool) :
    (deliverHook ok).calls ≤ maxRetries ∧
    ((deliverHook ok).success = false →
      (deliverHook ok).calls = maxRetries ∧
      (deliverHook ok).delays = [1000, 2000]) ∧
    requestTimeout = 10000 ∧
    (sendFanout hooks ev oks).length = hooks.length := by
  refine ⟨?_, ?_, rfl, by simp [sendFanout]⟩ <;>
    cases h0 : ok 0 <;> cases h1 : ok 1 <;> cases h2 : ok 2 <;>
      simp [deliverHook, deliverLoop, h0, h1, h2, maxRetries, retryDelay]

/-- Witness for C4: a subscriber failing three times in a row gets
exactly 3 calls with sleeps of 1 s and 2 s, and the delivery settles as
a failure record. -/
theorem webhook_retry_bound_witness :
    (deliverHook (fun _ => false)).success = false ∧
    (deliverHook (fun _ => false)).calls = maxRetries ∧
    (deliverHook (fun _ => false)).delays = [1000, 2000] :=
  ⟨by decide,
   (webhook_retry_bound (fun _ => false) [] "message" (fun _ _ => false)).2.1
     (by decide)⟩

/-- C10 counterexample: the claimed normalization is not applied to every
chat id before a send.  `WhatsAppSession.formatChatId` — used for the
chat id of `sendPresenceUpdate`, `sendTyping` and other send paths —
turns `"8123456789"` into `"8123456789@s.whatsapp.net"`, while the
claimed rewrite (the one `Utilities.normalizePhoneNumber` performs)
produces `"628123456789"`: the `'8'`-prefix rule and the 9–15 digit
validation are skipped on those paths. -/
theorem phone_normalization_counterexample :
    formatChatId "8123456789" = "8123456789@s.whatsapp.net" ∧
    claimPhoneNormalization "8123456789" = some "628123456789" ∧
    formatChatId "8123456789" ≠ "628123456789" ++ "@s.whatsapp.net" := by
  refine ⟨by decide, by decide, by decide⟩

/-- C10 amended: `Utilities.normalizePhoneNumber` implements exactly the
described algorithm — strip non-digits, rewrite a leading `'0'` to
`'62'`, prefix `'62'` to a number starting with `'8'` with at least 10
digits, and accept iff the result has 9 to 15 digits — but it is not the
formatter of every path: the session-level `formatChatId` (used for chat
ids on several send paths) applies only the `'0'` rule with no digit
count validation, so an `'8…'` input of 10 digits is sent unrewritten. -/
theorem phone_normalization_amended :
    (∀ input : String,
      (normalizePhoneNumber input).normalized = claimPhoneNormalization input ∧
      ((normalizePhoneNumber input).valid = true ↔
        (claimPhoneNormalization input).isSome = true)) ∧
    formatChatId "8123456789" = "8123456789@s.whatsapp.net" ∧
    claimPhoneNormalization "8123456789" = some "628123456789" := by
  refine ⟨?_, by decide, by decide⟩
  intro input
  simp only [normalizePhoneNumber, claimPhoneNormalization]
  by_cases h : input.data.isEmpty
  · have hd : stripNonDigits input = "" := by
      rcases input with ⟨d⟩
      simp at h
      simp [stripNonDigits, h]
    simp [h, hd, jsStartsWith, jsDrop]
  · simp only [h, if_false, Bool.false_eq_true]
    by_cases h2 : (stripNonDigits input).length = 0
    · have hd : stripNonDigits input = "" := by
        rcases hs : stripNonDigits input with ⟨d⟩
        rw [hs] at h2
        simp [String.length] at h2
        simp [h2]
      simp [h2, hd, jsStartsWith, jsDrop]
    · simp only [h2, if_false]
      split_ifs with hc1 hc2 hc3 hc4 hc5 hc6 <;> simp_all <;> omega

/-- C7: per contact event each incoming field is diffed against the
stored row: re-ingesting a contact whose fields are all unchanged
produces zero change-history rows and zero row mutation (the `continue`
branch), and when fields differ, every logged history entry corresponds
to one of the eight compared fields whose stored value really differs
from the incoming one. -/
theorem contact_diff_correct :
    (∀ r : ContactRow, processContact (some r) r = (ContactWrite.skip, [])) ∧
    (∀ ex fin : ContactRow, ∀ ch ∈ (processContact (some ex) fin).2,
      ∃ acc : ContactRow → Option String,
        (ch.changed_field, acc) ∈ contactFieldList ∧
        acc ex = ch.old_value ∧ acc fin = ch.new_value ∧ acc ex ≠ acc fin) ∧
    (∀ ex fin : ContactRow, diffContact ex fin = [] →
      processContact (some ex) fin = (ContactWrite.skip, [])) := by
  refine ⟨?_, ?_, ?_⟩
  · intro r
    simp [processContact, diffContact, contactFieldList]
  · intro ex fin ch hch
    have hmem : ch ∈ diffContact ex fin := by
      rcases hd : diffContact ex fin with _ | ⟨c, cs⟩
      · simp [processContact, hd] at hch
      · simpa [processContact, hd] using hch
    rw [diffContact, List.mem_filterMap] at hmem
    obtain ⟨⟨nm, acc⟩, hacc, hf⟩ := hmem
    refine ⟨acc, ?_⟩
    by_cases hne : acc ex ≠ acc fin
    · rw [if_pos hne] at hf
      obtain rfl := Option.some.inj hf
      exact ⟨hacc, rfl, rfl, hne⟩
    · rw [if_neg hne] at hf
      exact absurd hf (by simp)
  · intro ex fin hd
    simp [processContact, hd]

/-- Witness for C7: an unchanged contact is skipped with no history; a
contact whose `name` changed from `"A"` to `"B"` logs exactly that
field. -/
theorem contact_diff_correct_witness :
    processContact
        (some ⟨none, none, some "A", none, none, none, none, none⟩)
        ⟨none, none, some "A", none, none, none, none, none⟩
      = (ContactWrite.skip, []) ∧
    (∃ acc : ContactRow → Option String,
        (("name", acc) ∈ contactFieldList) ∧
        acc ⟨none, none, some "A", none, none, none, none, none⟩ = some "A" ∧
        acc ⟨none, none, some "B", none, none, none, none, none⟩ = some "B" ∧
        acc ⟨none, none, some "A", none, none, none, none, none⟩ ≠
          acc ⟨none, none, some "B", none, none, none, none, none⟩) := by
  constructor
  · exact contact_diff_correct.1
      ⟨none, none, some "A", none, none, none, none, none⟩
  · obtain ⟨acc, h1, h2, h3, h4⟩ :=
      contact_diff_correct.2.1
        ⟨none, none, some "A", none, none, none, none, none⟩
        ⟨none, none, some "B", none, none, none, none, none⟩
        ⟨"name", some "A", some "B"⟩ (by decide)
    exact ⟨acc, h1, h2, h3, h4⟩

/-- C6: the reconnect bound is broken by the code.  `connect()` resets
`this.reconnectAttempts = 0` on every execution (its comment claims the
reset is for a successful *manual* connect, but the scheduled
`setTimeout(() => this.connect(), delay)` runs the same method), so after
`maxReconnectAttempts = 8` consecutive recoverable disconnects — each
followed by the scheduled reconnect executing — the 9th recoverable
disconnect still schedules a reconnect: the trace of 9 closes interleaved
with 8 successful connect runs schedules 9 reconnects, one more than the
configured maximum, and the supervisor never stops retrying.  The third
conjunct shows the bound code only engages when `connect()` never runs
in between: 9 bare closes schedule just 8 reconnects. -/
theorem reconnect_bound_bug :
    (supRun initialSup (reconnectCycleTrace maxReconnectAttempts)).2
        = maxReconnectAttempts + 1 ∧
    (supRun initialSup (reconnectCycleTrace maxReconnectAttempts)).1
        = { connectionStatus := "disconnected", reconnectAttempts := 1 } ∧
    (supRun initialSup
        (List.replicate (maxReconnectAttempts + 1) (SupEvent.connClose false))).2
        = maxReconnectAttempts := by
  refine ⟨by decide, by decide, by decide⟩

/-- C9 counterexample: an incremental `remove` whose target is absent
leaves the stored set unchanged yet still issues the write-back (the
no-change skip of `_updateBlocklist` is guarded by `type === "add"`), and
a full sync whose payload normalizes to the empty set does not replace
the stored set wholesale but returns early. -/
theorem blocklist_counterexample :
    updateBlocklist (some ["628111@s.whatsapp.net"]) BLType.remove
        ["628999@s.whatsapp.net"]
      = (some ["628111@s.whatsapp.net"], true) ∧
    upsertBlocklist (some ["628111@s.whatsapp.net"]) []
      = some ["628111@s.whatsapp.net"] := by
  refine ⟨by decide, by decide⟩

/-- Prefix decomposition of the JS-Set dedup of `cur ++ n` when the
stored list `cur` is duplicate-free: the stored elements survive in
place and only fresh elements are appended. -/
theorem jsSetDedupGo_append_nodup (cur : List String) :
    ∀ (n seen : List String), cur.Nodup → (∀ x ∈ cur, x ∉ seen) →
      ∃ extras, jsSetDedupGo seen (cur ++ n) = cur ++ extras := by
  induction cur with
  | nil => exact fun n seen _ _ => ⟨jsSetDedupGo seen n, rfl⟩
  | cons x cur ih =>
    intro n seen hnd hseen
    have hx : seen.contains x = false := by
      simpa using hseen x (List.mem_cons_self x cur)
    have hnd2 : cur.Nodup := (List.nodup_cons.mp hnd).2
    have hseen2 : ∀ y ∈ cur, y ∉ x :: seen := by
      intro y hy
      simp only [List.mem_cons]
      push_neg
      exact ⟨fun hyx => (List.nodup_cons.mp hnd).1 (hyx ▸ hy),
             hseen y (List.mem_cons_of_mem x hy)⟩
    obtain ⟨extras, hex⟩ := ih n (x :: seen) hnd2 hseen2
    refine ⟨extras, ?_⟩
    simp only [List.cons_append, jsSetDedupGo, hx, Bool.false_eq_true, if_false]
    exact congrArg (List.cons x) hex

/-- C9 amended: a blocklist full sync replaces the stored set wholesale
whenever the event carries at least one valid (`'@'`-containing) entry,
while an event normalizing to the empty list is ignored; an incremental
`add` on a duplicate-free stored list skips the write exactly when the
deduplicated union equals the stored list (and then leaves the store
untouched); an incremental `remove` always writes the filtered set back,
even when nothing was removed. -/
theorem blocklist_amended :
    (∀ stored bl, normalizeJids bl ≠ [] →
        upsertBlocklist stored bl = some (normalizeJids bl)) ∧
    (∀ stored bl, normalizeJids bl = [] →
        upsertBlocklist stored bl = stored) ∧
    (∀ (cur : List String) bl, cur.Nodup → normalizeJids bl ≠ [] →
        ((updateBlocklist (some cur) BLType.add bl).2 = false ↔
          jsSetDedup (cur ++ normalizeJids bl) = cur) ∧
        ((updateBlocklist (some cur) BLType.add bl).2 = false →
          updateBlocklist (some cur) BLType.add bl = (some cur, false))) ∧
    (∀ (cur : List String) bl, normalizeJids bl ≠ [] →
        updateBlocklist (some cur) BLType.remove bl
          = (some (cur.filter (fun jid => !(normalizeJids bl).contains jid)),
             true)) := by
  refine ⟨?_, ?_, ?_, ?_⟩
  · intro stored bl h
    simp only [upsertBlocklist]
    rw [if_neg (by simpa using h)]
  · intro stored bl h
    simp only [upsertBlocklist]
    rw [if_pos (by simpa using h)]
  · intro cur bl hnd hne
    obtain ⟨extras, hex⟩ :=
      jsSetDedupGo_append_nodup cur (normalizeJids bl) [] hnd (by simp)
    have hded : jsSetDedup (cur ++ normalizeJids bl) = cur ++ extras := hex
    simp only [updateBlocklist]
    rw [if_neg (by simpa using hne)]
    simp only [Option.getD, and_true, hded]
    constructor
    · constructor
      · intro hf
        split_ifs at hf with hlen
        have hex0 : extras = [] := by
          rw [List.length_append] at hlen
          have : extras.length = 0 := by omega
          exact List.length_eq_zero.mp this
        simp [hex0]
      · intro heq
        rw [if_pos (by simp [heq])]
    · intro hf
      split_ifs at hf with hlen
      rw [if_pos hlen]
  · intro cur bl hne
    simp only [updateBlocklist]
    rw [if_neg (by simpa using hne)]
    simp

/-- Witness for C9 amended: a full sync of one entry into an empty store,
and a no-change `remove` that still writes. -/
theorem blocklist_amended_witness :
    upsertBlocklist none ["628111@s.whatsapp.net"]
        = some ["628111@s.whatsapp.net"] ∧
    updateBlocklist (some ["628111@s.whatsapp.net"]) BLType.remove
        ["628999@s.whatsapp.net"]
      = (some ["628111@s.whatsapp.net"], true) := by
  constructor
  · have := blocklist_amended.1 none ["628111@s.whatsapp.net"] (by decide)
    rw [this]
    decide
  · have := blocklist_amended.2.2.2 ["628111@s.whatsapp.net"]
      ["628999@s.whatsapp.net"] (by decide)
    rw [this]
    decide

/-- Dedup never keeps a string that the Set already contains. -/
theorem countStr_go_of_mem_seen (l : List PEntry) :
    ∀ (seen : List PEntry) (s : String), PEntry.pstr s ∈ seen →
      countStr (peSetDedupGo seen l) s = 0 := by
  induction l with
  | nil => intro seen s _; rfl
  | cons x rest ih =>
    intro seen s hs
    match x with
    | .pstr t =>
      by_cases hc : seen.contains (PEntry.pstr t) = true
      · rw [peSetDedupGo, if_pos hc]
        exact ih seen s hs
      · rw [peSetDedupGo, if_neg hc]
        have hts : t ≠ s := by
          rintro rfl
          exact hc (by simpa using hs)
        rw [countStr, List.count_cons]
        have h2 := ih (PEntry.pstr t :: seen) s (List.mem_cons_of_mem _ hs)
        rw [countStr] at h2
        simp [h2, hts]
    | .pobj i a =>
      rw [peSetDedupGo, countStr, List.count_cons]
      have h2 := ih seen s hs
      rw [countStr] at h2
      simp [h2]

theorem countStr_go_le_one (l : List PEntry) :
    ∀ (seen : List PEntry) (s : String), countStr (peSetDedupGo seen l) s ≤ 1 := by
  induction l with
  | nil => intro seen s; simp [peSetDedupGo, countStr]
  | cons x rest ih =>
    intro seen s
    match x with
    | .pstr t =>
      by_cases hc : seen.contains (PEntry.pstr t) = true
      · rw [peSetDedupGo, if_pos hc]
        exact ih seen s
      · rw [peSetDedupGo, if_neg hc, countStr, List.count_cons]
        by_cases hts : t = s
        · subst hts
          have h0 := countStr_go_of_mem_seen rest (PEntry.pstr t :: seen) t
            (List.mem_cons_self _ _)
          rw [countStr] at h0
          simp [h0]
        · have h2 := ih (PEntry.pstr t :: seen) s
          rw [countStr] at h2
          simpa [hts] using h2
    | .pobj i a =>
      rw [peSetDedupGo, countStr, List.count_cons]
      have h2 := ih seen s
      rw [countStr] at h2
      simp [h2]

theorem mem_go_iff (l : List PEntry) :
    ∀ (seen : List PEntry) (s : String),
      PEntry.pstr s ∈ peSetDedupGo seen l ↔
        PEntry.pstr s ∈ l ∧ PEntry.pstr s ∉ seen := by
  induction l with
  | nil => intro seen s; simp [peSetDedupGo]
  | cons x rest ih =>
    intro seen s
    match x with
    | .pstr t =>
      by_cases hc : seen.contains (PEntry.pstr t) = true
      · rw [peSetDedupGo, if_pos hc]
        have hmem : PEntry.pstr t ∈ seen := by simpa using hc
        simp only [List.mem_cons, ih]
        constructor
        · rintro ⟨h1, h2⟩
          exact ⟨Or.inr h1, h2⟩
        · rintro ⟨h1 | h1, h2⟩
          · exact absurd (h1 ▸ hmem) h2
          · exact ⟨h1, h2⟩
      · rw [peSetDedupGo, if_neg hc]
        have hmem : PEntry.pstr t ∉ seen := by simpa using hc
        simp only [List.mem_cons, ih]
        constructor
        · rintro (h | ⟨h1, h2⟩)
          · exact ⟨Or.inl h, h ▸ hmem⟩
          · exact ⟨Or.inr h1, fun hs => h2 (Or.inr hs)⟩
        · rintro ⟨h1 | h1, h2⟩
          · exact Or.inl h1
          · by_cases hts : PEntry.pstr s = PEntry.pstr t
            · exact Or.inl hts
            · exact Or.inr ⟨h1, fun hs => (hs.elim hts h2)⟩
    | .pobj i a =>
      rw [peSetDedupGo]
      simp only [List.mem_cons, ih]
      constructor
      · rintro (h | ⟨h1, h2⟩)
        · exact absurd h (by simp)
        · exact ⟨Or.inr h1, h2⟩
      · rintro ⟨h1 | h1, h2⟩
        · exact absurd h1 (by simp)
        · exact Or.inr ⟨h1, h2⟩

theorem go_append (l1 : List PEntry) :
    ∀ (l2 seen : List PEntry),
      peSetDedupGo seen (l1 ++ l2) =
        peSetDedupGo seen l1 ++ peSetDedupGo (peSeenAcc seen l1) l2 := by
  induction l1 with
  | nil => intro l2 seen; rfl
  | cons x rest ih =>
    intro l2 seen
    match x with
    | .pstr t =>
      by_cases hc : seen.contains (PEntry.pstr t) = true
      · rw [List.cons_append, peSetDedupGo, if_pos hc, peSetDedupGo, if_pos hc,
          peSeenAcc]
        simp only [hc, if_pos]
        exact ih l2 seen
      · rw [List.cons_append, peSetDedupGo, if_neg hc, peSetDedupGo, if_neg hc,
          peSeenAcc]
        simp only [hc, Bool.false_eq_true, if_false]
        rw [List.cons_append]
        exact congrArg _ (ih l2 (PEntry.pstr t :: seen))
    | .pobj i a =>
      rw [List.cons_append, peSetDedupGo, peSetDedupGo, peSeenAcc]
      rw [List.cons_append]
      exact congrArg _ (ih l2 seen)

theorem mem_seenAcc_iff (l : List PEntry) :
    ∀ (seen : List PEntry) (s : String),
      PEntry.pstr s ∈ peSeenAcc seen l ↔
        PEntry.pstr s ∈ seen ∨ PEntry.pstr s ∈ l := by
  induction l with
  | nil => intro seen s; simp [peSeenAcc]
  | cons x rest ih =>
    intro seen s
    match x with
    | .pstr t =>
      by_cases hc : seen.contains (PEntry.pstr t) = true
      · have hmem : PEntry.pstr t ∈ seen := by simpa using hc
        rw [peSeenAcc, if_pos hc, ih]
        simp only [List.mem_cons]
        constructor
        · rintro (h | h)
          · exact Or.inl h
          · exact Or.inr (Or.inr h)
        · rintro (h | h | h)
          · exact Or.inl h
          · exact Or.inl (h ▸ hmem)
          · exact Or.inr h
      · rw [peSeenAcc, if_neg hc, ih]
        simp only [List.mem_cons]
        tauto
    | .pobj i a =>
      rw [peSeenAcc, ih]
      simp only [List.mem_cons]
      have : PEntry.pstr s ≠ PEntry.pobj i a := by simp
      tauto

theorem go_stable (l : List PEntry) :
    ∀ (seen : List PEntry),
      (∀ s, PEntry.pstr s ∈ l → PEntry.pstr s ∉ seen) →
      (∀ s, countStr l s ≤ 1) →
      peSetDedupGo seen l = l := by
  induction l with
  | nil => intro seen _ _; rfl
  | cons x rest ih =>
    intro seen hdisj hcnt
    match x with
    | .pstr t =>
      have hc : ¬ seen.contains (PEntry.pstr t) = true := by
        simpa using hdisj t (List.mem_cons_self _ _)
      rw [peSetDedupGo, if_neg hc]
      have hrest : peSetDedupGo (PEntry.pstr t :: seen) rest = rest := by
        apply ih
        · intro s hs
          simp only [List.mem_cons]
          push_neg
          constructor
          · intro heq
            have := hcnt t
            rw [countStr, List.count_cons] at this
            have hpos : 0 < rest.count (PEntry.pstr t) :=
              List.count_pos_iff.mpr (heq ▸ hs)
            simp at this
            omega
          · exact hdisj s (List.mem_cons_of_mem _ hs)
        · intro s
          have := hcnt s
          rw [countStr, List.count_cons] at this
          rw [countStr]
          omega
      rw [hrest]
    | .pobj i a =>
      rw [peSetDedupGo]
      have hrest : peSetDedupGo seen rest = rest := by
        apply ih
        · exact fun s hs => hdisj s (List.mem_cons_of_mem _ hs)
        · intro s
          have := hcnt s
          rw [countStr, List.count_cons] at this
          rw [countStr]
          omega
      rw [hrest]

theorem add_idem (l : List PEntry) (P : String) :
    applyParticipants (applyParticipants l GPAction.add [P]) GPAction.add [P]
      = applyParticipants l GPAction.add [P] := by
  simp only [applyParticipants, List.map_cons, List.map_nil, peSetDedup]
  set A := peSetDedupGo [] (l ++ [PEntry.pstr P]) with hA
  have hmemP : PEntry.pstr P ∈ A := by
    rw [hA, mem_go_iff]
    simp
  rw [go_append]
  have h1 : peSetDedupGo [] A = A := by
    apply go_stable
    · intro s _
      simp
    · intro s
      rw [hA]
      exact countStr_go_le_one _ _ _
  have h2 : peSetDedupGo (peSeenAcc [] A) [PEntry.pstr P] = [] := by
    have hmem2 : PEntry.pstr P ∈ peSeenAcc [] A := by
      rw [mem_seenAcc_iff]
      exact Or.inr hmemP
    have hc : (peSeenAcc [] A).contains (PEntry.pstr P) = true := by
      simpa using hmem2
    rw [peSetDedupGo, if_pos hc]
    rfl
  rw [h1, h2, List.append_nil]

theorem add_exactly_once (l : List PEntry) (P : String) :
    countStr (applyParticipants l GPAction.add [P]) P = 1 := by
  simp only [applyParticipants, List.map_cons, List.map_nil, peSetDedup]
  have hle := countStr_go_le_one (l ++ [PEntry.pstr P]) [] P
  have hmem : PEntry.pstr P ∈ peSetDedupGo [] (l ++ [PEntry.pstr P]) := by
    rw [mem_go_iff]
    simp
  have hpos : 0 < countStr (peSetDedupGo [] (l ++ [PEntry.pstr P])) P := by
    rw [countStr]
    exact List.count_pos_iff.mpr hmem
  omega

theorem remove_absent_noop (l : List PEntry) (ps : List String)
    (h : ∀ p ∈ l, entryIncludedAsValue ps p = false) :
    applyParticipants l GPAction.remove ps = l := by
  simp only [applyParticipants]
  rw [List.filter_eq_self]
  intro p hp
  simp [h p hp]

theorem map_zip_self (f : PEntry → PEntry) (l : List PEntry) :
    (l.map f).zip l = l.map (fun a => (f a, a)) := by
  induction l with
  | nil => rfl
  | cons x xs ih => simp [ih]

theorem promote_demote_shape (l : List PEntry) (ps : List String) (b : Bool) :
    ∀ pr ∈ (applyParticipants l (if b then GPAction.promote else GPAction.demote)
        ps).zip l,
      (entryTargeted ps pr.2 = false → pr.1 = pr.2) ∧
      (∀ i a, pr.2 = PEntry.pobj (some i) a → entryTargeted ps pr.2 = true →
        pr.1 = PEntry.pobj (some i) (some b)) ∧
      (∀ s, pr.2 = PEntry.pstr s → entryTargeted ps pr.2 = true →
        pr.1 = PEntry.pobj none (some b)) := by
  have hmap : applyParticipants l (if b then GPAction.promote else GPAction.demote)
      ps = l.map (fun p =>
        if entryTargeted ps p then spreadWithAdmin b p else p) := by
    cases b <;> simp [applyParticipants]
  rw [hmap]
  intro pr hpr
  rw [map_zip_self] at hpr
  obtain ⟨p, hp, rfl⟩ := List.mem_map.mp hpr
  refine ⟨?_, ?_, ?_⟩
  · intro ht
    simp [ht]
  · rintro i a rfl ht
    simp [ht, spreadWithAdmin]
  · rintro s rfl ht
    simp [ht, spreadWithAdmin]

/-- C8 counterexample: `promote` does not merely change the admin tier of
a member already present.  For a participant stored as a plain JID string
(which is exactly what a previous `add` update writes),
`{...p, admin: true}` spreads the string into an object with no `id`
property: after promoting `"p1@s.whatsapp.net"` the stored list contains
no entry identifiable as that participant at all. -/
theorem participant_promote_counterexample :
    applyParticipants [PEntry.pstr "p1@s.whatsapp.net"] GPAction.promote
        ["p1@s.whatsapp.net"]
      = [PEntry.pobj none (some true)] ∧
    (∀ q ∈ applyParticipants [PEntry.pstr "p1@s.whatsapp.net"]
        GPAction.promote ["p1@s.whatsapp.net"],
      entryId q ≠ some "p1@s.whatsapp.net") ∧
    entryId (PEntry.pstr "p1@s.whatsapp.net") = some "p1@s.whatsapp.net" := by
  refine ⟨by decide, by decide, by decide⟩

/-- C8 amended: the read-modify-write participant update behaves as the
claim states for `add` and `remove` — applying `add P` twice equals
applying it once and leaves exactly one string entry for `P`, and
`remove P` when no entry carries the value `P` is a no-op — and
`promote`/`demote` never change membership count and only set the
`admin` flag of targeted entries stored as objects with an `id` (whose
id is preserved), but a targeted entry stored as a plain string is
replaced by an object that has lost the participant id. -/
theorem participant_set_amended :
    (∀ (l : List PEntry) (P : String),
      applyParticipants (applyParticipants l GPAction.add [P]) GPAction.add [P]
        = applyParticipants l GPAction.add [P]) ∧
    (∀ (l : List PEntry) (P : String),
      countStr (applyParticipants l GPAction.add [P]) P = 1) ∧
    (∀ (l : List PEntry) (ps : List String),
      (∀ p ∈ l, entryIncludedAsValue ps p = false) →
      applyParticipants l GPAction.remove ps = l) ∧
    (∀ (l : List PEntry) (ps : List String) (b : Bool),
      (applyParticipants l (if b then GPAction.promote else GPAction.demote)
        ps).length = l.length ∧
      ∀ pr ∈ (applyParticipants l
          (if b then GPAction.promote else GPAction.demote) ps).zip l,
        (entryTargeted ps pr.2 = false → pr.1 = pr.2) ∧
        (∀ i a, pr.2 = PEntry.pobj (some i) a → entryTargeted ps pr.2 = true →
          pr.1 = PEntry.pobj (some i) (some b)) ∧
        (∀ s, pr.2 = PEntry.pstr s → entryTargeted ps pr.2 = true →
          pr.1 = PEntry.pobj none (some b))) := by
  refine ⟨add_idem, add_exactly_once, remove_absent_noop, ?_⟩
  intro l ps b
  refine ⟨?_, promote_demote_shape l ps b⟩
  cases b <;> simp [applyParticipants]

/-- Witness for C8 amended: a no-op remove and an exactly-once add on
concrete lists. -/
theorem participant_set_amended_witness :
    applyParticipants [PEntry.pstr "a@s.whatsapp.net"] GPAction.remove
        ["b@s.whatsapp.net"] = [PEntry.pstr "a@s.whatsapp.net"] ∧
    countStr (applyParticipants [] GPAction.add ["p@s.whatsapp.net"])
        "p@s.whatsapp.net" = 1 :=
  ⟨participant_set_amended.2.2.1 [PEntry.pstr "a@s.whatsapp.net"]
      ["b@s.whatsapp.net"] (by decide),
   participant_set_amended.2.1 [] "p@s.whatsapp.net"⟩

theorem jsRound100_mono (k1 k2 T : Nat) (h : k1 ≤ k2) :
    jsRound100 k1 T ≤ jsRound100 k2 T := by
  apply Nat.div_le_div_right
  omega

theorem jsRound100_total (T : Nat) (h : 1 ≤ T) : jsRound100 T T = 100 := by
  rw [jsRound100]
  apply Nat.div_eq_of_lt_le <;> omega

theorem jsRound100_lt (k T : Nat) (hk : k < T) (hT : T ≤ 100) :
    jsRound100 k T ≤ 99 := by
  rw [jsRound100]
  have h2 : 0 < 2 * T := by omega
  have h3 : (200 * k + T) / (2 * T) < 100 :=
    (Nat.div_lt_iff_lt_mul h2).mpr (by omega)
  omega

theorem bulkStep_proj (j : BulkJob) (it : String × SendOutcome) :
    (bulkStep j it).total = j.total ∧
    (bulkStep j it).status = j.status ∧
    (bulkStep j it).hasCompletedAt = j.hasCompletedAt ∧
    (bulkStep j it).sent = j.sent + (isOk it.2).toNat ∧
    (bulkStep j it).failed = j.failed + (!isOk it.2).toNat ∧
    (bulkStep j it).details.length = j.details.length + 1 ∧
    (bulkStep j it).progress = jsRound100 (j.sent + j.failed + 1) j.total := by
  rcases it with ⟨r, o⟩
  cases o with
  | ok mid =>
    refine ⟨rfl, rfl, rfl, rfl, rfl, by simp [bulkStep], ?_⟩
    show jsRound100 (j.sent + 1 + j.failed) j.total = _
    rw [show j.sent + 1 + j.failed = j.sent + j.failed + 1 from by omega]
  | fail err =>
    refine ⟨rfl, rfl, rfl, rfl, rfl, by simp [bulkStep], ?_⟩
    show jsRound100 (j.sent + (j.failed + 1)) j.total = _
    rw [show j.sent + (j.failed + 1) = j.sent + j.failed + 1 from by omega]

theorem processItems_spec (items : List (String × SendOutcome)) :
    ∀ j : BulkJob,
      (processItems j items).total = j.total ∧
      (processItems j items).status = j.status ∧
      (processItems j items).hasCompletedAt = j.hasCompletedAt ∧
      (processItems j items).sent
        = j.sent + items.countP (fun it => isOk it.2) ∧
      (processItems j items).failed
        = j.failed + items.countP (fun it => !isOk it.2) ∧
      (processItems j items).details.length
        = j.details.length + items.length ∧
      (processItems j items).progress
        = (if items.length = 0 then j.progress
           else jsRound100 (j.sent + j.failed + items.length) j.total) := by
  induction items with
  | nil => intro j; simp [processItems]
  | cons it rest ih =>
    intro j
    have hstep : processItems j (it :: rest) = processItems (bulkStep j it) rest := rfl
    obtain ⟨ht, hs, hc, hsent, hfail, hdet, hprog⟩ := ih (bulkStep j it)
    obtain ⟨pt, ps, pc, psent, pfail, pdet, pprog⟩ := bulkStep_proj j it
    rw [hstep]
    rw [pt] at ht hprog
    rw [ps] at hs
    rw [pc] at hc
    rw [psent] at hsent hprog
    rw [pfail] at hfail hprog
    rw [pdet] at hdet
    rw [pprog] at hprog
    refine ⟨ht, hs, hc, ?_, ?_, ?_, ?_⟩
    · rw [hsent, List.countP_cons]
      cases hio : isOk it.2 <;> simp [hio] <;> omega
    · rw [hfail, List.countP_cons]
      cases hio : isOk it.2 <;> simp [hio] <;> omega
    · rw [hdet, List.length_cons]
      omega
    · rw [hprog, List.length_cons]
      rw [if_neg (by omega : ¬ rest.length + 1 = 0)]
      by_cases h0 : rest.length = 0
      · rw [if_pos h0, h0]
      · rw [if_neg h0]
        congr 1
        cases hio : isOk it.2 <;> simp [hio] <;> omega

theorem mem_bulkSnapshots (items : List (String × SendOutcome)) (s : BulkJob)
    (hs : s ∈ bulkSnapshots items) :
    s = initJob items.length ∨
    (∃ k < items.length,
      s = processItems { initJob items.length with status := "processing" }
        (items.take k)) ∨
    s = runBulk items := by
  rw [bulkSnapshots, List.cons_append, List.mem_cons] at hs
  rcases hs with h | hs
  · exact Or.inl h
  rw [List.mem_append, List.mem_singleton] at hs
  rcases hs with hs | h
  · obtain ⟨k, hk, rfl⟩ := List.mem_map.mp hs
    exact Or.inr (Or.inl ⟨k, List.mem_range.mp hk, rfl⟩)
  · exact Or.inr (Or.inr h)

theorem countP_ok_add_not (items : List (String × SendOutcome)) :
    items.countP (fun it => isOk it.2) + items.countP (fun it => !isOk it.2)
      = items.length := by
  induction items with
  | nil => rfl
  | cons it rest ih =>
    rw [List.countP_cons, List.countP_cons, List.length_cons]
    cases hio : isOk it.2 <;> simp [hio] <;> omega

/-- C5: over the whole lifecycle of a bulk job (with the handler's
validation of 1 to 100 recipients), `sent + failed = total` holds exactly
at the `completed` snapshots, the per-recipient details list has length
`total` at completion, `sent`/`failed` count exactly the succeeded and
failed items (so an individual failure never aborts the remaining
batch), and `progress` is monotonically non-decreasing along the
observable snapshot sequence, reaching 100 only at completion. -/
theorem bulk_job_accounting (items : List (String × SendOutcome))
    (h1 : 1 ≤ items.length) (h2 : items.length ≤ 100) :
    (∀ recipients : List String,
      bulkAccepted recipients = true ↔
        1 ≤ recipients.length ∧ recipients.length ≤ 100) ∧
    (runBulk items).status = "completed" ∧
    (runBulk items).hasCompletedAt = true ∧
    (runBulk items).total = items.length ∧
    (runBulk items).sent = items.countP (fun it => isOk it.2) ∧
    (runBulk items).failed = items.countP (fun it => !isOk it.2) ∧
    (runBulk items).sent + (runBulk items).failed = (runBulk items).total ∧
    (runBulk items).details.length = (runBulk items).total ∧
    (runBulk items).progress = 100 ∧
    (∀ s ∈ bulkSnapshots items,
      (s.sent + s.failed = s.total ↔ s.status = "completed")) ∧
    (∀ s ∈ bulkSnapshots items, s.progress = 100 → s.status = "completed") ∧
    List.Chain' (fun a b => a.progress ≤ b.progress) (bulkSnapshots items) := by
  obtain ⟨t0, s0, c0, se0, f0, d0, p0⟩ :=
    processItems_spec items { initJob items.length with status := "processing" }
  have hrt : (runBulk items).total = items.length := by
    simpa [initJob] using t0
  have hrsent : (runBulk items).sent = items.countP (fun it => isOk it.2) := by
    simpa [initJob] using se0
  have hrfail : (runBulk items).failed = items.countP (fun it => !isOk it.2) := by
    simpa [initJob] using f0
  have hrdet : (runBulk items).details.length = items.length := by
    simpa [initJob] using d0
  have hrprog : (runBulk items).progress = 100 := by
    show (processItems _ items).progress = 100
    rw [p0, if_neg (by omega)]
    simpa [initJob] using jsRound100_total items.length h1
  -- per-snapshot facts for the intermediate processing states
  have hmid : ∀ k < items.length,
      (processItems { initJob items.length with status := "processing" }
          (items.take k)).sent +
        (processItems { initJob items.length with status := "processing" }
          (items.take k)).failed = k ∧
      (processItems { initJob items.length with status := "processing" }
          (items.take k)).total = items.length ∧
      (processItems { initJob items.length with status := "processing" }
          (items.take k)).status = "processing" ∧
      (processItems { initJob items.length with status := "processing" }
          (items.take k)).progress ≤ 99 := by
    intro k hk
    obtain ⟨tk, sk, ck, sek, fk, dk, pk⟩ :=
      processItems_spec (items.take k)
        { initJob items.length with status := "processing" }
    have hlen : (items.take k).length = k := by
      rw [List.length_take]
      omega
    refine ⟨?_, tk, sk, ?_⟩
    · rw [sek, fk]
      have := countP_ok_add_not (items.take k)
      rw [hlen] at this
      simpa [initJob] using this
    · rw [pk]
      by_cases h0 : (items.take k).length = 0
      · rw [if_pos h0]
        simp [initJob]
      · rw [if_neg h0]
        have h99 : jsRound100 k items.length ≤ 99 := by
          apply jsRound100_lt <;> omega
        simpa [initJob, hlen] using h99
  refine ⟨?_, rfl, rfl, hrt, hrsent, hrfail, ?_, ?_, hrprog, ?_, ?_, ?_⟩
  · intro recipients
    rw [bulkAccepted]
    cases recipients <;> simp
  · rw [hrsent, hrfail, hrt]
    exact countP_ok_add_not items
  · rw [hrdet, hrt]
  · intro s hs
    rcases mem_bulkSnapshots items s hs with h | ⟨k, hk, h⟩ | h
    · subst h
      constructor
      · intro habs
        simp [initJob] at habs
        omega
      · intro habs
        simp [initJob] at habs
    · subst h
      obtain ⟨hsum, htot, hstat, _⟩ := hmid k hk
      rw [hsum, htot, hstat]
      constructor
      · intro habs; omega
      · intro habs; exact absurd habs (by decide)
    · subst h
      rw [hrsent, hrfail, hrt]
      simp [runBulk]
      exact countP_ok_add_not items
  · intro s hs
    rcases mem_bulkSnapshots items s hs with h | ⟨k, hk, h⟩ | h
    · subst h
      intro habs
      simp [initJob] at habs
    · subst h
      obtain ⟨_, _, hstat, hle⟩ := hmid k hk
      intro habs
      omega
    · subst h
      intro _
      rfl
  · -- monotone progress along the snapshot sequence
    apply List.Pairwise.chain'
    rw [bulkSnapshots, List.cons_append]
    rw [List.pairwise_cons]
    constructor
    · intro b _
      show (initJob items.length).progress ≤ b.progress
      exact Nat.zero_le _
    rw [List.pairwise_append]
    refine ⟨?_, ?_, ?_⟩
    · rw [List.pairwise_map]
      have hm := List.pairwise_lt_range items.length
      apply hm.imp
      intro a b hab
      show (processItems _ (items.take a)).progress
        ≤ (processItems _ (items.take b)).progress
      obtain ⟨_, _, _, _, _, _, pa⟩ :=
        processItems_spec (items.take a)
          { initJob items.length with status := "processing" }
      obtain ⟨_, _, _, _, _, _, pb⟩ :=
        processItems_spec (items.take b)
          { initJob items.length with status := "processing" }
      rw [pa, pb]
      by_cases ha0 : (items.take a).length = 0
      · rw [if_pos ha0]
        split_ifs with hb0
        · exact Nat.le_refl _
        · exact Nat.zero_le _
      · rw [if_neg ha0]
        have hb0 : ¬ (items.take b).length = 0 := by
          rw [List.length_take] at ha0 ⊢
          omega
        rw [if_neg hb0]
        apply jsRound100_mono
        rw [List.length_take, List.length_take] at *
        omega
    · simp
    · intro x hx y hy
      rw [List.mem_singleton] at hy
      subst hy
      obtain ⟨k, hk, rfl⟩ := List.mem_map.mp hx
      rw [List.mem_range] at hk
      obtain ⟨_, _, _, hle⟩ := hmid k hk
      rw [hrprog]
      omega

/-- Witness for C5, the spec scenario: 3 recipients with two successes
and one failure end as status `completed`, `sent = 2`, `failed = 1`,
`details` of length 3. -/
theorem bulk_job_accounting_witness :
    (runBulk [("62811@s.whatsapp.net", SendOutcome.ok "m1"),
              ("62812@s.whatsapp.net", SendOutcome.ok "m2"),
              ("62813@s.whatsapp.net", SendOutcome.fail "timeout")]).status
        = "completed" ∧
    (runBulk [("62811@s.whatsapp.net", SendOutcome.ok "m1"),
              ("62812@s.whatsapp.net", SendOutcome.ok "m2"),
              ("62813@s.whatsapp.net", SendOutcome.fail "timeout")]).sent = 2 ∧
    (runBulk [("62811@s.whatsapp.net", SendOutcome.ok "m1"),
              ("62812@s.whatsapp.net", SendOutcome.ok "m2"),
              ("62813@s.whatsapp.net", SendOutcome.fail "timeout")]).failed = 1 ∧
    (runBulk [("62811@s.whatsapp.net", SendOutcome.ok "m1"),
              ("62812@s.whatsapp.net", SendOutcome.ok "m2"),
              ("62813@s.whatsapp.net", SendOutcome.fail "timeout")]).details.length
        = 3 ∧
    (runBulk [("62811@s.whatsapp.net", SendOutcome.ok "m1"),
              ("62812@s.whatsapp.net", SendOutcome.ok "m2"),
              ("62813@s.whatsapp.net", SendOutcome.fail "timeout")]).progress
        = 100 := by
  obtain ⟨-, hstatus, -, htot, hsent, hfail, hsum, hdet, hprog, -⟩ :=
    bulk_job_accounting
      [("62811@s.whatsapp.net", SendOutcome.ok "m1"),
       ("62812@s.whatsapp.net", SendOutcome.ok "m2"),
       ("62813@s.whatsapp.net", SendOutcome.fail "timeout")]
      (by decide) (by decide)
  refine ⟨hstatus, ?_, ?_, ?_, hprog⟩
  · rw [hsent]; decide
  · rw [hfail]; decide
  · rw [hdet, htot]; decide

-- overview lemmas -----------------------------------------------------------

theorem find?_mapAdjust (g : Nat → Nat) (ov : List (String × Nat)) (c c' : String) :
    (ov.map (fun p => if p.1 = c then (p.1, g p.2) else p)).find?
        (fun p => p.1 = c')
      = (ov.find? (fun p => p.1 = c')).map
          (fun p => if p.1 = c then (p.1, g p.2) else p) := by
  induction ov with
  | nil => rfl
  | cons p rest ih =>
    have hfst : (if p.1 = c then (p.1, g p.2) else p).1 = p.1 := by
      split_ifs <;> rfl
    by_cases hp : p.1 = c'
    · rw [List.map_cons,
        List.find?_cons_of_pos _ (by simpa [hfst] using hp),
        List.find?_cons_of_pos _ (by simpa using hp)]
      rfl
    · rw [List.map_cons,
        List.find?_cons_of_neg _ (by simpa [hfst] using hp),
        List.find?_cons_of_neg _ (by simpa using hp)]
      exact ih

theorem ovValue_incr (ov : List (String × Nat)) (c c' : String) :
    storedUnread ⟨[], ovIncr ov c⟩ c'
      = (if c' = c then storedUnread ⟨[], ov⟩ c' + 1
         else storedUnread ⟨[], ov⟩ c') := by
  show (match (ovIncr ov c).find? (fun p => p.1 = c') with
        | some p => p.2 | none => 0) = _
  rw [ovIncr]
  by_cases hany : ov.any (fun p => p.1 = c) = true
  · rw [if_pos hany, find?_mapAdjust (fun x => x + 1)]
    rcases hf : ov.find? (fun p => p.1 = c') with _ | p
    · have hnone : ¬ c' = c := by
        rintro rfl
        obtain ⟨p, hp, hpc⟩ := List.any_eq_true.mp hany
        have := List.find?_eq_none.mp hf p hp
        simp at hpc this
        exact this hpc
      simp [storedUnread, hf, hnone]
    · have hpc' : p.1 = c' := by simpa using List.find?_some hf
      by_cases hcc : c' = c
      · subst hcc
        simp [storedUnread, hf, hpc']
      · have : ¬ p.1 = c := by rw [hpc']; exact hcc
        simp [storedUnread, hf, this, hcc]
  · rw [if_neg hany]
    by_cases hcc : c' = c
    · subst hcc
      rw [List.find?_cons_of_pos _ (by simp)]
      have hnone : ov.find? (fun p => p.1 = c') = none := by
        rw [List.find?_eq_none]
        intro p hp
        intro hpc
        apply hany
        rw [List.any_eq_true]
        exact ⟨p, hp, hpc⟩
      simp [storedUnread, hnone]
    · rw [List.find?_cons_of_neg _ (by simp only [decide_eq_true_eq]; exact fun h => hcc h.symm),
        if_neg hcc]
      rfl

theorem ovValue_decr (ov : List (String × Nat)) (c c' : String) :
    storedUnread ⟨[], ovDecr ov c⟩ c'
      = (if c' = c then storedUnread ⟨[], ov⟩ c' - 1
         else storedUnread ⟨[], ov⟩ c') := by
  show (match (ovDecr ov c).find? (fun p => p.1 = c') with
        | some p => p.2 | none => 0) = _
  rw [ovDecr, find?_mapAdjust (fun x => x - 1)]
  rcases hf : ov.find? (fun p => p.1 = c') with _ | p
  · simp [storedUnread, hf]
  · have hpc' : p.1 = c' := by simpa using List.find?_some hf
    by_cases hcc : c' = c
    · subst hcc
      simp [storedUnread, hf, hpc']
    · have : ¬ p.1 = c := by rw [hpc']; exact hcc
      simp [storedUnread, hf, this, hcc]

-- message-row list lemmas ---------------------------------------------------

theorem mapUpd_of_none (l : List MsgRow) (k : String × String) (row : MsgRow)
    (h : ∀ r ∈ l, rowKey r ≠ k) :
    l.map (fun r => if rowKey r = k then row else r) = l := by
  induction l with
  | nil => rfl
  | cons x rest ih =>
    rw [List.map_cons, if_neg (h x (List.mem_cons_self _ _)),
      ih (fun r hr => h r (List.mem_cons_of_mem _ hr))]

theorem find?_decomp (l : List MsgRow) (k : String × String) (old : MsgRow)
    (hf : l.find? (fun r => rowKey r = k) = some old)
    (hnd : (l.map rowKey).Nodup) :
    ∃ l1 l2, l = l1 ++ old :: l2 ∧ rowKey old = k ∧
      (∀ r ∈ l1, rowKey r ≠ k) ∧ (∀ r ∈ l2, rowKey r ≠ k) := by
  induction l with
  | nil => simp at hf
  | cons x rest ih =>
    by_cases hx : rowKey x = k
    · rw [List.find?_cons_of_pos _ (by simpa using hx)] at hf
      obtain rfl := Option.some.inj hf
      refine ⟨[], rest, rfl, hx, by simp, ?_⟩
      intro r hr hrk
      rw [List.map_cons, List.nodup_cons] at hnd
      exact hnd.1 (by
        rw [hx, ← hrk]
        exact List.mem_map_of_mem rowKey hr)
    · rw [List.find?_cons_of_neg _ (by simpa using hx)] at hf
      rw [List.map_cons, List.nodup_cons] at hnd
      obtain ⟨l1, l2, rfl, hold, h1, h2⟩ := ih hf hnd.2
      exact ⟨x :: l1, l2, rfl, hold,
        fun r hr => by
          rcases List.mem_cons.mp hr with rfl | hr2
          · exact hx
          · exact h1 r hr2, h2⟩

theorem countP_sandwich (p : MsgRow → Bool) (l1 l2 : List MsgRow) (a : MsgRow) :
    (l1 ++ a :: l2).countP p
      = l1.countP p + l2.countP p + (if p a then 1 else 0) := by
  rw [List.countP_append, List.countP_cons]
  split_ifs <;> omega

-- the invariant -------------------------------------------------------------

theorem storedUnread_ov (ms : List MsgRow) (ov : List (String × Nat)) (c : String) :
    storedUnread ⟨ms, ov⟩ c = storedUnread ⟨[], ov⟩ c := rfl

theorem writeStatus_inv (s : StoreState) (c m : String) (old : MsgRow) (st : String)
    (hf : s.msgs.find? (fun r => rowKey r = (c, m)) = some old)
    (hInv : StoreInv s)
    (hok : ¬(old.from_me = false ∧ old.status = "read" ∧ st ≠ "read")) :
    StoreInv (writeStatus s c m old st) := by
  obtain ⟨hnd, hcnt⟩ := hInv
  obtain ⟨l1, l2, hl, holdk, h1, h2⟩ := find?_decomp s.msgs (c, m) old hf hnd
  have hchat : old.chat_id = c := by
    have := congrArg Prod.fst holdk
    simpa [rowKey] using this
  set row : MsgRow := ⟨c, m, old.from_me, st⟩ with hrow
  have hrowk : rowKey row = (c, m) := rfl
  have hmsgs : (writeStatus s c m old st).msgs = l1 ++ row :: l2 := by
    show s.msgs.map (fun r => if rowKey r = (c, m) then row else r) = _
    rw [hl, List.map_append, List.map_cons, mapUpd_of_none l1 _ _ h1,
      mapUpd_of_none l2 _ _ h2, if_pos holdk]
  have hkeys : ((writeStatus s c m old st).msgs.map rowKey) = s.msgs.map rowKey := by
    rw [hmsgs, hl, List.map_append, List.map_append, List.map_cons, List.map_cons,
      hrowk, holdk]
  constructor
  · rw [hkeys]; exact hnd
  intro c'
  have hspec : specUnread (writeStatus s c m old st) c'
      = l1.countP (countsUnread c') + l2.countP (countsUnread c')
        + (if countsUnread c' row then 1 else 0) := by
    show (writeStatus s c m old st).msgs.countP _ = _
    rw [hmsgs, countP_sandwich]
  have hspec0 : specUnread s c'
      = l1.countP (countsUnread c') + l2.countP (countsUnread c')
        + (if countsUnread c' old then 1 else 0) := by
    show s.msgs.countP _ = _
    rw [hl, countP_sandwich]
  have hov : (writeStatus s c m old st).overview
      = (if old.from_me = false && old.status != "read" && st == "read" then
          ovDecr s.overview c else s.overview) := rfl
  by_cases hfm : old.from_me = false
  · by_cases hos : old.status = "read"
    · -- stored status already read: the guard forces st = "read"
      have hst : st = "read" := by
        by_contra hst
        exact hok ⟨hfm, hos, hst⟩
      have hcond : (old.from_me = false && old.status != "read" && st == "read")
          = false := by
        simp [hfm, hos]
      have hcifold : countsUnread c' old = false := by
        simp [countsUnread, hos]
      have hcifrow : countsUnread c' row = false := by
        simp [countsUnread, hrow, hst]
      rw [hspec, hcifrow, storedUnread_ov _ _ c', hov, hcond]
      simp only [Bool.false_eq_true, if_false]
      rw [← storedUnread_ov s.msgs, hcnt c', hspec0, hcifold]
      simp
    · by_cases hst : st = "read"
      · -- non-read → read : decrement
        have hcond : (old.from_me = false && old.status != "read" && st == "read")
            = true := by
          simp [hfm, hos, hst]
        have hcifold : countsUnread c' old = decide (c = c') := by
          have hb2 : (old.status != "read") = true := by
            simpa [bne_iff_ne] using hos
          simp [countsUnread, hchat, hfm, hb2]
        have hcifrow : countsUnread c' row = false := by
          simp [countsUnread, hrow, hst]
        rw [hspec, hcifrow, storedUnread_ov _ _ c', hov, hcond, if_pos rfl,
          ovValue_decr]
        by_cases hcc : c' = c
        · rw [if_pos hcc, ← storedUnread_ov s.msgs, hcnt c', hspec0, hcifold]
          subst hcc
          simp only [Bool.false_eq_true, if_false, decide_eq_true_eq,
            eq_self_iff_true, if_true]
          omega
        · rw [if_neg hcc, ← storedUnread_ov s.msgs, hcnt c', hspec0, hcifold]
          have : decide (c = c') = false := by
            simpa using fun h => hcc h.symm
          rw [this]
      · -- non-read → non-read : no change either side
        have hcond : (old.from_me = false && old.status != "read" && st == "read")
            = false := by
          simp [hst]
        have heq : countsUnread c' row = countsUnread c' old := by
          have hb1 : (st != "read") = true := by simpa [bne_iff_ne] using hst
          have hb2 : (old.status != "read") = true := by
            simpa [bne_iff_ne] using hos
          simp [countsUnread, hrow, hchat, hb1, hb2]
        rw [hspec, heq, storedUnread_ov _ _ c', hov, hcond]
        simp only [Bool.false_eq_true, if_false]
        rw [← storedUnread_ov s.msgs, hcnt c', hspec0]
  · -- outbound row: never counted, trigger never fires
    have hfm' : old.from_me = true := by simpa using hfm
    have hcond : (old.from_me = false && old.status != "read" && st == "read")
        = false := by
      simp [hfm']
    have hcifold : countsUnread c' old = false := by
      simp [countsUnread, hfm']
    have hcifrow : countsUnread c' row = false := by
      simp [countsUnread, hrow, hfm']
    rw [hspec, hcifrow, storedUnread_ov _ _ c', hov, hcond]
    simp only [Bool.false_eq_true, if_false]
    rw [← storedUnread_ov s.msgs, hcnt c', hspec0, hcifold]
    simp

theorem inv_init : StoreInv initialStore := by
  constructor
  · simp [initialStore]
  · intro c
    rfl

theorem inv_step (s : StoreState) (e : MsgEvent) (hInv : StoreInv s)
    (hok : eventOk s e = true) : StoreInv (applyEvent s e) := by
  obtain ⟨hnd, hcnt⟩ := hInv
  cases e with
  | upsert c m fm st big =>
    by_cases hbig : big = true
    · have : applyEvent s (.upsert c m fm st big) = s := by
        simp [applyEvent, hbig]
      rw [this]
      exact ⟨hnd, hcnt⟩
    · have hbig' : big = false := by simpa using hbig
      subst hbig'
      rcases hf : s.msgs.find? (fun r => rowKey r = (c, m)) with _ | old
      · -- fresh insert
        set row : MsgRow := ⟨c, m, fm, st⟩ with hrow
        have happ : applyEvent s (.upsert c m fm st false)
            = { msgs := row :: s.msgs,
                overview := if fm = false && st != "read" then
                    ovIncr s.overview c
                  else s.overview } := by
          simp [applyEvent, hf]
        rw [happ]
        have hnotmem : ∀ r ∈ s.msgs, rowKey r ≠ (c, m) := by
          intro r hr
          have := List.find?_eq_none.mp hf r hr
          simpa using this
        constructor
        · rw [List.map_cons, List.nodup_cons]
          refine ⟨?_, hnd⟩
          intro hmem
          obtain ⟨r, hr, hkr⟩ := List.mem_map.mp hmem
          exact hnotmem r hr hkr
        · intro c'
          have hspec : specUnread
              ({ msgs := row :: s.msgs,
                 overview := if fm = false && st != "read" then
                     ovIncr s.overview c
                   else s.overview } : StoreState) c'
              = s.msgs.countP (countsUnread c')
                + (if countsUnread c' row then 1 else 0) := by
            show (row :: s.msgs).countP _ = _
            rw [List.countP_cons]
          rw [hspec]
          by_cases hcond : (fm = false && st != "read") = true
          · have hfm : fm = false := by
              simp [Bool.and_eq_true] at hcond
              exact hcond.1
            have hst : st ≠ "read" := by
              simp [Bool.and_eq_true, bne_iff_ne] at hcond
              exact hcond.2
            have hcif : countsUnread c' row = decide (c = c') := by
              have hb : (st != "read") = true := by simpa [bne_iff_ne] using hst
              simp [countsUnread, hrow, hfm, hb]
            rw [hcif]
            rw [storedUnread_ov, if_pos hcond, ovValue_incr]
            by_cases hcc : c' = c
            · rw [if_pos hcc, ← storedUnread_ov s.msgs, hcnt c']
              subst hcc
              simp [specUnread]
            · rw [if_neg hcc, ← storedUnread_ov s.msgs, hcnt c']
              have : decide (c = c') = false := by
                simpa using fun h => hcc h.symm
              rw [this]
              simp [specUnread]
          · have hcif : countsUnread c' row = false := by
              simp only [Bool.and_eq_true, decide_eq_true_eq, bne_iff_ne,
                not_and, ne_eq, not_not] at hcond
              by_cases hfm : fm = false
              · have hst : st = "read" := hcond hfm
                simp [countsUnread, hrow, hst]
              · have : fm = true := by simpa using hfm
                simp [countsUnread, hrow, this]
            rw [hcif]
            have hcond' : (fm = false && st != "read") = false := by
              simpa using hcond
            rw [storedUnread_ov, hcond']
            simp only [Bool.false_eq_true, if_false]
            rw [← storedUnread_ov s.msgs, hcnt c']
            simp [specUnread]
      · -- existing row: merge path
        have happ : applyEvent s (.upsert c m fm st false)
            = writeStatus s c m old st := by
          simp [applyEvent, hf]
        rw [happ]
        apply writeStatus_inv s c m old st hf ⟨hnd, hcnt⟩
        rintro ⟨hfm, hos, hst⟩
        have hb : (st != "read") = true := by simpa [bne_iff_ne] using hst
        have htrue : (decide (old.from_me = false) && old.status == "read"
            && st != "read") = true := by
          simp [hfm, hos, hb]
        simp only [eventOk, hf, Bool.false_eq_true, if_false] at hok
        rw [htrue] at hok
        simp at hok
  | statusUpdate c m st =>
    rcases hf : s.msgs.find? (fun r => rowKey r = (c, m)) with _ | old
    · have : applyEvent s (.statusUpdate c m st) = s := by
        simp [applyEvent, hf]
      rw [this]
      exact ⟨hnd, hcnt⟩
    · have happ : applyEvent s (.statusUpdate c m st)
          = writeStatus s c m old st := by
        simp [applyEvent, hf]
      rw [happ]
      apply writeStatus_inv s c m old st hf ⟨hnd, hcnt⟩
      rintro ⟨hfm, hos, hst⟩
      have hb : (st != "read") = true := by simpa [bne_iff_ne] using hst
      have htrue : (decide (old.from_me = false) && old.status == "read"
          && st != "read") = true := by
        simp [hfm, hos, hb]
      simp only [eventOk, hf] at hok
      rw [htrue] at hok
      simp at hok

/-- C1 amended: for every chat, after any sequence of message-insert and
status-update events in which no event rewrites a stored inbound
message's status from `'read'` back to a non-`'read'` value (the
direction the triggers do not compensate), the stored unread counter of
the chat equals the number of persisted messages of that chat with
`from_me = false` and `status ≠ 'read'`: inserts of inbound non-read
messages insert-or-increment the overview row, and non-read→read
transitions decrement it (the `GREATEST(… - 1, 0)` floor never engages
on such traces). -/
theorem unread_amended (es : List MsgEvent) (h : traceOk initialStore es = true)
    (c : String) :
    storedUnread (applyEvents initialStore es) c
      = specUnread (applyEvents initialStore es) c := by
  suffices hgen : ∀ (es : List MsgEvent) (s : StoreState), StoreInv s →
      traceOk s es = true → StoreInv (applyEvents s es) by
    exact (hgen es initialStore inv_init h).2 c
  intro es
  induction es with
  | nil => intro s hs _; exact hs
  | cons e rest ih =>
    intro s hs htr
    rw [traceOk, Bool.and_eq_true] at htr
    exact ih (applyEvent s e) (inv_step s e hs htr.1) htr.2

/-- C1 counterexample: the equality does not hold after *any* sequence of
insert and status-update events.  Ingesting `M1` in chat `C1` with
`fromMe = false, status = "read"` (no trigger fires) and then a status
update back to `"sent"` (the update trigger only reacts to transitions
*into* `'read'`) leaves the stored counter at 0 while one inbound
non-read message is persisted. -/
theorem unread_counterexample :
    storedUnread
      (applyEvents initialStore
        [MsgEvent.upsert "C1" "M1" false "read" false,
         MsgEvent.statusUpdate "C1" "M1" "sent"]) "C1" = 0 ∧
    specUnread
      (applyEvents initialStore
        [MsgEvent.upsert "C1" "M1" false "read" false,
         MsgEvent.statusUpdate "C1" "M1" "sent"]) "C1" = 1 := by
  refine ⟨by decide, by decide⟩

/-- Witness for C1 amended, the spec scenario: insert `M1` in `C1` with
`fromMe = false, status = "sent"` (counter 1), then update `M1` to
`"read"` (counter 0); the trace is status-monotone and the amended
equality holds at its end. -/
theorem unread_amended_witness :
    traceOk initialStore
      [MsgEvent.upsert "C1" "M1" false "sent" false,
       MsgEvent.statusUpdate "C1" "M1" "read"] = true ∧
    storedUnread
      (applyEvents initialStore
        [MsgEvent.upsert "C1" "M1" false "sent" false]) "C1" = 1 ∧
    storedUnread
      (applyEvents initialStore
        [MsgEvent.upsert "C1" "M1" false "sent" false,
         MsgEvent.statusUpdate "C1" "M1" "read"]) "C1" = 0 ∧
    storedUnread
      (applyEvents initialStore
        [MsgEvent.upsert "C1" "M1" false "sent" false,
         MsgEvent.statusUpdate "C1" "M1" "read"]) "C1"
      = specUnread
          (applyEvents initialStore
            [MsgEvent.upsert "C1" "M1" false "sent" false,
             MsgEvent.statusUpdate "C1" "M1" "read"]) "C1" :=
  ⟨by decide, by decide, by decide,
   unread_amended
     [MsgEvent.upsert "C1" "M1" false "sent" false,
      MsgEvent.statusUpdate "C1" "M1" "read"] (by decide) "C1"⟩

-- C2: idempotent ingestion --------------------------------------------------

theorem find?_mapUpd (l : List MsgRow) (k : String × String) (row : MsgRow)
    (hrowk : rowKey row = k) :
    (l.map (fun r => if rowKey r = k then row else r)).find?
        (fun r => rowKey r = k)
      = (l.find? (fun r => rowKey r = k)).map
          (fun r => if rowKey r = k then row else r) := by
  induction l with
  | nil => rfl
  | cons x rest ih =>
    by_cases hx : rowKey x = k
    · rw [List.map_cons, if_pos hx,
        List.find?_cons_of_pos _ (by simpa using hrowk),
        List.find?_cons_of_pos _ (by simpa using hx)]
      simp [hx]
    · rw [List.map_cons, if_neg hx,
        List.find?_cons_of_neg _ (by simpa using hx),
        List.find?_cons_of_neg _ (by simpa using hx)]
      exact ih

theorem map_id_on (l : List MsgRow) (f : MsgRow → MsgRow)
    (h : ∀ r ∈ l, f r = r) : l.map f = l := by
  induction l with
  | nil => rfl
  | cons x rest ih =>
    rw [List.map_cons, h x (List.mem_cons_self _ _),
      ih (fun r hr => h r (List.mem_cons_of_mem _ hr))]

theorem writeStatus_self (s : StoreState) (c m : String) (old : MsgRow)
    (st : String)
    (hall : ∀ r ∈ s.msgs, rowKey r = (c, m) →
      r = (⟨c, m, old.from_me, st⟩ : MsgRow))
    (hst : old.status = st) :
    writeStatus s c m old st = s := by
  have hmsgs : s.msgs.map
      (fun r => if rowKey r = (c, m) then (⟨c, m, old.from_me, st⟩ : MsgRow)
        else r) = s.msgs := by
    apply map_id_on
    intro r hr
    by_cases hk : rowKey r = (c, m)
    · rw [if_pos hk, ← hall r hr hk]
    · rw [if_neg hk]
  have hcond : (old.from_me = false && old.status != "read" && st == "read")
      = false := by
    by_cases h' : st = "read"
    · rw [hst, h']
      simp
    · have : (st == "read") = false := by simpa using h'
      simp [this]
  show StoreState.mk _ _ = s
  rw [hmsgs, hcond]
  cases s
  rfl

/-- C2: ingestion is idempotent.  Applying the same message event twice
yields the same persisted state as applying it once: a first ingestion
of a `(chatId, messageId)` key inserts the row (and counts it at most
once), and re-applying the identical event takes the
`ON DUPLICATE KEY UPDATE` merge path, which rewrites the same mutable
fields with the same values and leaves the unread counter untouched
(the decrement trigger needs `OLD.status ≠ 'read'` and
`NEW.status = 'read'`, impossible when old and new status coincide) —
no duplicate row and no double-counted unread.  The same holds for
status-update events. -/
theorem ingestion_idempotent (s : StoreState) (e : MsgEvent) :
    applyEvent (applyEvent s e) e = applyEvent s e := by
  cases e with
  | upsert c m fm st big =>
    by_cases hbig : big = true
    · have h1 : applyEvent s (.upsert c m fm st big) = s := by
        simp [applyEvent, hbig]
      rw [h1, h1]
    · have hbig' : big = false := by simpa using hbig
      subst hbig'
      rcases hf : s.msgs.find? (fun r => rowKey r = (c, m)) with _ | old
      · set row : MsgRow := ⟨c, m, fm, st⟩ with hrow
        have h1 : applyEvent s (.upsert c m fm st false)
            = { msgs := row :: s.msgs,
                overview := if fm = false && st != "read" then
                    ovIncr s.overview c
                  else s.overview } := by
          simp [applyEvent, hf]
        rw [h1]
        have hf2 : (row :: s.msgs).find? (fun r => rowKey r = (c, m))
            = some row := by
          rw [List.find?_cons_of_pos _ (by simp [rowKey])]
        have h2 : applyEvent
            ({ msgs := row :: s.msgs,
               overview := if fm = false && st != "read" then
                   ovIncr s.overview c
                 else s.overview } : StoreState) (.upsert c m fm st false)
            = writeStatus
                ({ msgs := row :: s.msgs,
                   overview := if fm = false && st != "read" then
                       ovIncr s.overview c
                     else s.overview } : StoreState) c m row st := by
          simp [applyEvent, hf2]
        rw [h2]
        apply writeStatus_self
        · intro r hr hk
          rcases List.mem_cons.mp hr with rfl | hr2
          · rfl
          · exact absurd hk (by simpa using List.find?_eq_none.mp hf r hr2)
        · rfl
      · have holdk : rowKey old = (c, m) := by
          simpa using List.find?_some hf
        set row : MsgRow := ⟨c, m, old.from_me, st⟩ with hrow
        have hrowk : rowKey row = (c, m) := rfl
        have h1 : applyEvent s (.upsert c m fm st false)
            = writeStatus s c m old st := by
          simp [applyEvent, hf]
        rw [h1]
        have hf2 : (writeStatus s c m old st).msgs.find?
            (fun r => rowKey r = (c, m)) = some row := by
          show (s.msgs.map _).find? _ = _
          rw [find?_mapUpd _ _ _ hrowk, hf]
          simp [holdk]
        have h2 : applyEvent (writeStatus s c m old st) (.upsert c m fm st false)
            = writeStatus (writeStatus s c m old st) c m row st := by
          simp [applyEvent, hf2]
        rw [h2]
        apply writeStatus_self
        · intro r hr hk
          obtain ⟨r0, hr0, rfl⟩ := List.mem_map.mp hr
          by_cases hk0 : rowKey r0 = (c, m)
          · rw [if_pos hk0]
          · rw [if_neg hk0] at hk ⊢
            exact absurd hk hk0
        · rfl
  | statusUpdate c m st =>
    rcases hf : s.msgs.find? (fun r => rowKey r = (c, m)) with _ | old
    · have h1 : applyEvent s (.statusUpdate c m st) = s := by
        simp [applyEvent, hf]
      rw [h1, h1]
    · have holdk : rowKey old = (c, m) := by
        simpa using List.find?_some hf
      set row : MsgRow := ⟨c, m, old.from_me, st⟩ with hrow
      have hrowk : rowKey row = (c, m) := rfl
      have h1 : applyEvent s (.statusUpdate c m st)
          = writeStatus s c m old st := by
        simp [applyEvent, hf]
      rw [h1]
      have hf2 : (writeStatus s c m old st).msgs.find?
          (fun r => rowKey r = (c, m)) = some row := by
        show (s.msgs.map _).find? _ = _
        rw [find?_mapUpd _ _ _ hrowk, hf]
        simp [holdk]
      have h2 : applyEvent (writeStatus s c m old st) (.statusUpdate c m st)
          = writeStatus (writeStatus s c m old st) c m row st := by
        simp [applyEvent, hf2]
      rw [h2]
      apply writeStatus_self
      · intro r hr hk
        obtain ⟨r0, hr0, rfl⟩ := List.mem_map.mp hr
        by_cases hk0 : rowKey r0 = (c, m)
        · rw [if_pos hk0]
        · rw [if_neg hk0] at hk ⊢
          exact absurd hk hk0
      · rfl

end Chatery
